import Mathlib

/-!
Verification of the rango web framework core: router, query builder,
data-access layer, model layer and request dispatcher.

Each Python component is shallowly embedded as executable Lean definitions:

* `SimpleRouter` (src/build/lib/rango/router.py): route patterns are the
  compiled form produced by `add_route`, which replaces every placeholder
  segment of the path template by a named capture group matching one or more
  characters other than the path separator.  A compiled pattern is a list of
  `TplPart`: `lit c` is a literal character of the template and `param n` is
  a capture group.  The model covers templates whose literal characters are
  not regular-expression metacharacters, for which literal matching is exact.
* `QuerySet` (src/rango/models.py): the fluent filter/order/limit/offset
  builder and `_build_query`.
* `ORM` (src/build/lib/rango/orm.py): `execute` and `insert` over a
  connection model with an explicit committed state and pending state; the
  embedded database engine is abstracted as a statement-running oracle.
* `Model.save` (src/rango/models.py) over a concrete table model of a
  SQLite table whose `id` column is an INTEGER PRIMARY KEY rowid alias.
* The dispatcher error normalization of `App.add_route` (src/rango/app.py).

Python values bound as SQL parameters or stored in rows are modelled by
`PyVal`; Python `None` is `PyVal.none`.
-/

/-- A Python value as it appears in filter arguments, bound SQL parameters
and database rows. -/
inductive PyVal where
  | int (n : Int)
  | str (s : String)
  | none
  | list (xs : List PyVal)

/-- Python truthiness test `value is not None`. -/
def PyVal.isNotNone : PyVal → Bool
  | .none => false
  | _ => true

/-- Python `", ".join` over already rendered items. -/
def joinComma : List String → String
  | [] => ""
  | [s] => s
  | s :: rest => s ++ ", " ++ joinComma rest

mutual

/-- Python `repr` for the modelled values (used by `str` on lists). -/
def pyRepr : PyVal → String
  | .int n => toString n
  | .str s => "\x27" ++ s ++ "\x27"
  | .none => "None"
  | .list xs => "[" ++ joinComma (pyReprList xs) ++ "]"

def pyReprList : List PyVal → List String
  | [] => []
  | x :: xs => pyRepr x :: pyReprList xs

end

/-- Python `str(value)` for the modelled values. -/
def pyStr : PyVal → String
  | .int n => toString n
  | .str s => s
  | .none => "None"
  | .list xs => "[" ++ joinComma (pyReprList xs) ++ "]"

/-- Python `sep.join(items)` for an arbitrary separator. -/
def joinSep (sep : String) : List String → String
  | [] => ""
  | [s] => s
  | s :: rest => s ++ sep ++ joinSep sep rest

/-- Number of SQL parameter placeholders in a string. -/
def countQ (s : String) : Nat := s.data.count '?'

/- ================================================================
   Router (src/build/lib/rango/router.py)
   ================================================================ -/

/-- One element of a compiled route pattern: `lit c` is a literal template
character, `param n` is the named capture group that `add_route` substitutes
for a placeholder, matching one or more characters excluding the slash. -/
inductive TplPart where
  | lit (c : Char)
  | param (name : String)
deriving DecidableEq

/-- The placeholder names of a compiled pattern, in template order. -/
def paramNames (p : List TplPart) : List String :=
  p.filterMap (fun t => match t with | .param n => some n | .lit _ => Option.none)

/-- Anchored match of a compiled pattern against a path, following the
regular-expression engine: literal characters must coincide, a capture group
consumes greedily (longest first, with backtracking) one or more characters
other than the slash, and the whole path must be consumed.  Returns the
captured group dictionary on success. -/
def reMatch : List TplPart → List Char → Option (List (String × String))
  | [], cs => if cs = [] then some [] else Option.none
  | .lit c :: ps, cs =>
      match cs with
      | [] => Option.none
      | d :: cs2 => if d = c then reMatch ps cs2 else Option.none
  | .param n :: ps, cs =>
      let m := (cs.takeWhile (fun ch => ch ≠ '/')).length
      ((List.range m).map (fun i => m - i)).findSome? (fun k =>
        (reMatch ps (cs.drop k)).map (fun bs => (n, String.mk (cs.take k)) :: bs))

/-- Declarative statement that a concrete path satisfies a pattern with a
given binding list: the path decomposes so that literal characters coincide
and every capture group stands for one or more characters excluding the
slash, the bindings listing each group name with the matched segment. -/
def SatWith : List TplPart → List Char → List (String × String) → Prop
  | [], cs, bs => cs = [] ∧ bs = []
  | .lit c :: ps, cs, bs => ∃ cs2, cs = c :: cs2 ∧ SatWith ps cs2 bs
  | .param n :: ps, cs, bs =>
      ∃ seg cs2 bs2, cs = seg ++ cs2 ∧ seg ≠ [] ∧ (∀ ch ∈ seg, ch ≠ '/') ∧
        bs = (n, String.mk seg) :: bs2 ∧ SatWith ps cs2 bs2

/-- A concrete path satisfies a template: every placeholder stands for one
or more characters excluding the slash and the literals coincide. -/
def Satisfies : List TplPart → List Char → Prop
  | [], cs => cs = []
  | .lit c :: ps, cs => ∃ cs2, cs = c :: cs2 ∧ Satisfies ps cs2
  | .param _ :: ps, cs =>
      ∃ seg cs2, cs = seg ++ cs2 ∧ seg ≠ [] ∧ (∀ ch ∈ seg, ch ≠ '/') ∧
        Satisfies ps cs2

/-- The routing table: a Python dict from (method, compiled pattern) to the
handler, iterated in insertion order. -/
structure SimpleRouter (H : Type) where
  routes : List ((String × List TplPart) × H)

/-- Python dict assignment: an existing key keeps its position and gets the
new value, a new key is appended. -/
def dictInsert {K V : Type} [DecidableEq K] (l : List (K × V)) (k : K) (v : V) :
    List (K × V) :=
  if l.any (fun kv => kv.1 = k) then
    l.map (fun kv => if kv.1 = k then (k, v) else kv)
  else l ++ [(k, v)]

/-- `SimpleRouter.add_route`: stores the handler under the (method, compiled
pattern) key. -/
def SimpleRouter.add_route {H : Type} (r : SimpleRouter H) (method : String)
    (pattern : List TplPart) (handler : H) : SimpleRouter H :=
  ⟨dictInsert r.routes (method, pattern) handler⟩

/-- The scanning loop of `SimpleRouter.resolve`: skips entries for other
methods and returns the first anchored match together with its group
dictionary; the miss sentinel is no handler and an empty dictionary. -/
def routeScan {H : Type} (method : String) (cs : List Char) :
    List ((String × List TplPart) × H) → Option H × List (String × String)
  | [] => (Option.none, [])
  | e :: rest =>
      if method = e.1.1 then
        match reMatch e.1.2 cs with
        | some bs => (some e.2, bs)
        | Option.none => routeScan method cs rest
      else routeScan method cs rest

/-- `SimpleRouter.resolve`. -/
def SimpleRouter.resolve {H : Type} (r : SimpleRouter H) (method path : String) :
    Option H × List (String × String) :=
  routeScan method path.toList r.routes

theorem length_takeWhile_le_len {α : Type} (p : α → Bool) (l : List α) :
    (l.takeWhile p).length ≤ l.length := by
  induction l with
  | nil => simp
  | cons a l ih =>
    by_cases h : p a
    · simpa [List.takeWhile_cons, h] using Nat.succ_le_succ ih
    · simp [List.takeWhile_cons, h]

theorem mem_take_of_le_takeWhile {cs : List Char} {k : Nat} {c : Char}
    (hk : k ≤ (cs.takeWhile (fun ch => ch ≠ '/')).length)
    (hc : c ∈ cs.take k) : c ≠ '/' := by
  obtain ⟨t, ht⟩ := @List.takeWhile_prefix Char cs (fun ch => ch ≠ '/')
  have h2 : cs.take k = (cs.takeWhile (fun ch => ch ≠ '/')).take k := by
    conv_lhs => rw [← ht]
    exact List.take_append_of_le_length hk
  rw [h2] at hc
  have h3 := List.take_subset k _ hc
  have h4 := List.mem_takeWhile_imp h3
  simpa using h4

theorem length_le_takeWhile_of_seg {seg rest : List Char}
    (hs : ∀ ch ∈ seg, ch ≠ '/') :
    seg.length ≤ ((seg ++ rest).takeWhile (fun ch => ch ≠ '/')).length := by
  induction seg with
  | nil => simp
  | cons a s ih =>
    have ha : a ≠ '/' := hs a (by simp)
    have ihs : ∀ ch ∈ s, ch ≠ '/' := fun ch h => hs ch (by simp [h])
    simpa [List.takeWhile_cons, ha] using Nat.succ_le_succ (ih ihs)

theorem reMatch_sound : ∀ (p : List TplPart) (cs : List Char) (bs : List (String × String)),
    reMatch p cs = some bs → SatWith p cs bs := by
  intro p
  induction p with
  | nil =>
    intro cs bs h
    simp only [reMatch] at h
    split at h
    · cases h; exact ⟨by assumption, rfl⟩
    · cases h
  | cons t ps ih =>
    cases t with
    | lit c =>
      intro cs bs h
      cases cs with
      | nil => simp [reMatch] at h
      | cons d cs2 =>
        simp only [reMatch] at h
        split at h
        · exact ⟨cs2, by simp [*], ih cs2 bs h⟩
        · cases h
    | param n =>
      intro cs bs h
      simp only [reMatch] at h
      obtain ⟨k, hkmem, hk⟩ := List.exists_of_findSome?_eq_some h
      obtain ⟨i, hi, rfl⟩ := List.mem_map.mp hkmem
      have him : i < (cs.takeWhile (fun ch => ch ≠ '/')).length := List.mem_range.mp hi
      obtain ⟨bs2, hbs2, rfl⟩ := Option.map_eq_some'.mp hk
      set m := (cs.takeWhile (fun ch => ch ≠ '/')).length with hm
      have hk1 : 1 ≤ m - i := Nat.le_sub_of_add_le (by omega)
      have hkm : m - i ≤ m := Nat.sub_le m i
      have hmlen : m ≤ cs.length := by
        rw [hm]; exact length_takeWhile_le_len _ cs
      refine ⟨cs.take (m - i), cs.drop (m - i), bs2, (List.take_append_drop _ cs).symm,
        ?_, ?_, rfl, ih _ bs2 hbs2⟩
      · have : (cs.take (m - i)).length = m - i := by
          rw [List.length_take]; omega
        intro hnil
        rw [hnil] at this
        simp at this
        omega
      · intro ch hch
        exact mem_take_of_le_takeWhile hkm hch

theorem satWith_satisfies : ∀ (p : List TplPart) (cs : List Char)
    (bs : List (String × String)), SatWith p cs bs → Satisfies p cs := by
  intro p
  induction p with
  | nil => intro cs bs h; exact h.1
  | cons t ps ih =>
    cases t with
    | lit c =>
      intro cs bs h
      obtain ⟨cs2, rfl, h2⟩ := h
      exact ⟨cs2, rfl, ih cs2 bs h2⟩
    | param n =>
      intro cs bs h
      obtain ⟨seg, cs2, bs2, rfl, hne, hsl, rfl, h2⟩ := h
      exact ⟨seg, cs2, rfl, hne, hsl, ih cs2 bs2 h2⟩

theorem satWith_keys : ∀ (p : List TplPart) (cs : List Char)
    (bs : List (String × String)), SatWith p cs bs →
    bs.map Prod.fst = paramNames p := by
  intro p
  induction p with
  | nil => intro cs bs h; simp [h.2, paramNames]
  | cons t ps ih =>
    cases t with
    | lit c =>
      intro cs bs h
      obtain ⟨cs2, rfl, h2⟩ := h
      simpa [paramNames, List.filterMap_cons] using ih cs2 bs h2
    | param n =>
      intro cs bs h
      obtain ⟨seg, cs2, bs2, rfl, hne, hsl, rfl, h2⟩ := h
      simpa [paramNames, List.filterMap_cons] using ih cs2 bs2 h2

theorem reMatch_complete : ∀ (p : List TplPart) (cs : List Char),
    Satisfies p cs → (reMatch p cs).isSome := by
  intro p
  induction p with
  | nil =>
    intro cs h
    simp only [Satisfies] at h
    simp [reMatch, h]
  | cons t ps ih =>
    cases t with
    | lit c =>
      intro cs h
      obtain ⟨cs2, rfl, h2⟩ := h
      simpa [reMatch] using ih cs2 h2
    | param n =>
      intro cs h
      obtain ⟨seg, cs2, rfl, hne, hsl, h2⟩ := h
      simp only [reMatch]
      set m := ((seg ++ cs2).takeWhile (fun ch => ch ≠ '/')).length with hm
      have hsegle : seg.length ≤ m := by
        rw [hm]; exact length_le_takeWhile_of_seg hsl
      have hseg1 : 1 ≤ seg.length := by
        cases seg with
        | nil => exact absurd rfl hne
        | cons a s => simp
      rw [Option.isSome_iff_exists]
      have hmem : seg.length ∈ (List.range m).map (fun i => m - i) := by
        refine List.mem_map.mpr ⟨m - seg.length, List.mem_range.mpr (by omega), ?_⟩
        exact Nat.sub_sub_self hsegle
      have hdrop : (seg ++ cs2).drop seg.length = cs2 := List.drop_left seg cs2
      have hrm : (reMatch ps ((seg ++ cs2).drop seg.length)).isSome := by
        rw [hdrop]; exact ih cs2 h2
      obtain ⟨bs2, hbs2⟩ := Option.isSome_iff_exists.mp hrm
      have hne2 : ((List.range m).map (fun i => m - i)).findSome? (fun k =>
          (reMatch ps ((seg ++ cs2).drop k)).map
            (fun bs => (n, String.mk ((seg ++ cs2).take k)) :: bs)) ≠ Option.none := by
        intro hnone
        have := (List.findSome?_eq_none_iff).mp hnone seg.length hmem
        rw [hbs2] at this
        simp at this
      obtain ⟨bs, hbs⟩ := Option.ne_none_iff_isSome.mp hne2 |> Option.isSome_iff_exists.mp
      exact ⟨bs, hbs⟩

theorem satisfies_iff_reMatch (p : List TplPart) (cs : List Char) :
    Satisfies p cs ↔ (reMatch p cs).isSome := by
  constructor
  · exact reMatch_complete p cs
  · intro h
    obtain ⟨bs, hbs⟩ := Option.isSome_iff_exists.mp h
    exact satWith_satisfies p cs bs (reMatch_sound p cs bs hbs)

instance (p : List TplPart) (cs : List Char) : Decidable (Satisfies p cs) :=
  decidable_of_iff _ (satisfies_iff_reMatch p cs).symm

theorem routeScan_pre {H : Type} (method : String) (cs : List Char)
    (pre rest : List ((String × List TplPart) × H))
    (hpre : ∀ e ∈ pre, e.1.1 = method → reMatch e.1.2 cs = Option.none) :
    routeScan method cs (pre ++ rest) = routeScan method cs rest := by
  induction pre with
  | nil => simp
  | cons e es ih =>
    have ihs := ih (fun x hx h => hpre x (by simp [hx]) h)
    simp only [List.cons_append, routeScan]
    by_cases hme : method = e.1.1
    · rw [hpre e (by simp) hme.symm, if_pos hme]
      exact ihs
    · rw [if_neg hme]
      exact ihs

theorem routeScan_found {H : Type} (method : String) (cs : List Char)
    (rest : List ((String × List TplPart) × H)) (p : List TplPart) (h : H)
    (bs : List (String × String)) (hm : reMatch p cs = some bs) :
    routeScan method cs (((method, p), h) :: rest) = (some h, bs) := by
  simp [routeScan, hm]

theorem routeScan_success {H : Type} (method : String) (cs : List Char) :
    ∀ (l : List ((String × List TplPart) × H)) (h : H) (bs : List (String × String)),
    routeScan method cs l = (some h, bs) →
    ∃ e ∈ l, e.1.1 = method ∧ reMatch e.1.2 cs = some bs ∧ e.2 = h := by
  intro l
  induction l with
  | nil => intro h bs hr; simp [routeScan] at hr
  | cons e es ih =>
    intro h bs hr
    simp only [routeScan] at hr
    by_cases hme : method = e.1.1
    · rw [if_pos hme] at hr
      rcases hrm : reMatch e.1.2 cs with _ | bs2 <;> rw [hrm] at hr
      · obtain ⟨e2, he2, h1, h2, h3⟩ := ih h bs hr
        exact ⟨e2, by simp [he2], h1, h2, h3⟩
      · have hr2 : ((some e.2 : Option H), bs2) = (some h, bs) := hr
        cases hr2
        exact ⟨e, by simp, hme.symm, hrm, rfl⟩
    · rw [if_neg hme] at hr
      obtain ⟨e2, he2, h1, h2, h3⟩ := ih h bs hr
      exact ⟨e2, by simp [he2], h1, h2, h3⟩

/-- First pattern registered in the shadowing counterexample: a placeholder
segment followed by the literal segment b. -/
def shadowP1 : List TplPart := [.param "x", .lit '/', .lit 'b']

/-- Second pattern registered in the shadowing counterexample: the literal
segment a followed by a placeholder segment. -/
def shadowP2 : List TplPart := [.lit 'a', .lit '/', .param "y"]

/-- A routing table in which both registered patterns match the path a/b. -/
def shadowRouter : SimpleRouter Nat :=
  ((SimpleRouter.mk []).add_route "GET" shadowP1 1).add_route "GET" shadowP2 2

/-- C1 counterexample: the route (GET, shadowP2) with handler 2 is
registered and the concrete path a/b satisfies its template, yet `resolve`
returns handler 1 (the earlier registered, also matching pattern) with the
parameter mapping of shadowP1, not handler 2 with the mapping of shadowP2.
So the claim that `resolve` returns the registered handler of every
satisfied template is false: resolution is first-match in registration
order. -/
theorem c1_resolve_counterexample :
    ((("GET", shadowP2), 2) ∈ shadowRouter.routes) ∧
    Satisfies shadowP2 "a/b".toList ∧
    shadowRouter.resolve "GET" "a/b" = (some 1, [("x", "a")]) := by
  decide

/-- C1 (amended): for every registered route and every concrete path that
satisfies its template, IF no route registered earlier in the table with the
same method also matches the path, then `resolve` returns that registered
handler together with a parameter mapping whose keys are exactly the
template's placeholder names and whose values are the corresponding matched
path segments (`SatWith` ties each captured value to its segment of the
path). -/
theorem c1_resolve_first_match {H : Type} (r : SimpleRouter H) (method path : String)
    (pre post : List ((String × List TplPart) × H)) (p : List TplPart) (h : H)
    (hr : r.routes = pre ++ ((method, p), h) :: post)
    (hpre : ∀ e ∈ pre, e.1.1 = method → reMatch e.1.2 path.toList = Option.none)
    (hsat : Satisfies p path.toList) :
    r.resolve method path = (some h, (reMatch p path.toList).getD []) ∧
    SatWith p path.toList ((reMatch p path.toList).getD []) ∧
    ((reMatch p path.toList).getD []).map Prod.fst = paramNames p := by
  obtain ⟨bs, hbs⟩ := Option.isSome_iff_exists.mp (reMatch_complete p path.toList hsat)
  have hget : (reMatch p path.toList).getD [] = bs := by rw [hbs]; rfl
  rw [hget]
  refine ⟨?_, reMatch_sound _ _ _ hbs, satWith_keys _ _ _ (reMatch_sound _ _ _ hbs)⟩
  unfold SimpleRouter.resolve
  rw [hr, routeScan_pre method path.toList pre _ hpre]
  exact routeScan_found method path.toList post p h bs hbs

/-- The template of the witness route for the amended C1. -/
def wPat : List TplPart := [.lit 'u', .lit '/', .param "id"]

/-- A single-route table used to witness the amended C1. -/
def wRouter : SimpleRouter Nat := (SimpleRouter.mk []).add_route "GET" wPat 7

theorem c1_resolve_first_match_witness :
    wRouter.resolve "GET" "u/42" = (some 7, (reMatch wPat "u/42".toList).getD []) ∧
    SatWith wPat "u/42".toList ((reMatch wPat "u/42".toList).getD []) ∧
    ((reMatch wPat "u/42".toList).getD []).map Prod.fst = paramNames wPat :=
  c1_resolve_first_match wRouter "GET" "u/42" [] [] wPat 7 rfl
    (by intro e he hm; cases he) (by decide)

/-- C8: when no registered route with the given method matches the path,
`resolve` returns the miss sentinel, a pair carrying no handler (its first
component is none, so it differs from every successful result `(some h, bs)`
even when `bs` is empty); being a total function, it raises nothing. -/
theorem c8_resolve_no_match {H : Type} (r : SimpleRouter H) (method path : String)
    (hnone : ∀ e ∈ r.routes, e.1.1 = method → reMatch e.1.2 path.toList = Option.none) :
    r.resolve method path = (Option.none, []) := by
  unfold SimpleRouter.resolve
  have hscan := routeScan_pre method path.toList r.routes ([] : List _) hnone
  simpa [routeScan] using hscan

/-- A single-route table used to witness C8. -/
def wRouter8 : SimpleRouter Nat := (SimpleRouter.mk []).add_route "GET" [.lit 'a'] 3

theorem c8_resolve_no_match_witness :
    wRouter8.resolve "POST" "/nope" = (Option.none, []) :=
  c8_resolve_no_match wRouter8 "POST" "/nope" (by decide)

/- ================================================================
   Rows and model instances (src/rango/models.py)
   ================================================================ -/

/-- A database row as produced by the data-access layer: a mapping from
column name to value, with SQL NULL represented by `PyVal.none`.  Rows of a
real table have pairwise distinct column names (`RowWF`). -/
abbrev Row := List (String × PyVal)

/-- Python `setattr` on the non-identity attributes of a model instance:
an existing attribute is overwritten in place, a new one is added. -/
def setAttrVal (attrs : List (String × PyVal)) (k : String) (v : PyVal) :
    List (String × PyVal) :=
  if (attrs.lookup k).isSome then
    attrs.map (fun kv => if kv.1 = k then (k, v) else kv)
  else attrs ++ [(k, v)]

/-- A model instance: the identity attribute (none when the attribute is
missing or holds Python None; identities are modelled as integers, matching
an INTEGER PRIMARY KEY column) and the remaining attributes.  An attribute
holding Python None and a missing attribute are both read back as None by
`getattr` with a None default, which is how `save` reads attributes. -/
structure Instance where
  id : Option Int
  attrs : List (String × PyVal)

/-- The `setattr` loop that copies a database row onto an instance, used by
the refresh step of `save` and by the row constructor of `all`. -/
def applyRow (i : Instance) (row : Row) : Instance :=
  row.foldl (fun acc kv =>
    if kv.1 = "id" then
      { acc with id := match kv.2 with | PyVal.int n => some n | _ => Option.none }
    else { acc with attrs := setAttrVal acc.attrs kv.1 kv.2 }) i

/-- `Model.__init__` applied to a row: every column becomes an attribute. -/
def modelInit (row : Row) : Instance := applyRow ⟨Option.none, []⟩ row

/- ================================================================
   Query builder (QuerySet, src/rango/models.py)
   ================================================================ -/

/-- Python `key.split` on a double underscore separator: scan left to
right, cutting at each non-overlapping occurrence. -/
def pySplitDunder : List Char → List Char → List (List Char)
  | [], acc => [acc.reverse]
  | '_' :: '_' :: rest, acc => acc.reverse :: pySplitDunder rest []
  | c :: rest, acc => pySplitDunder rest (c :: acc)

/-- The parts of a filter keyword split on the double underscore. -/
def pySplitKey (key : String) : List String :=
  (pySplitDunder key.toList []).map (fun l => String.mk l)

/-- Python iteration over a filter value, as used by the membership branch
of `filter`: a list yields its elements, a string yields its characters,
anything else raises (None result). -/
def pyIterate : PyVal → Option (List PyVal)
  | .list xs => some xs
  | .str s => some (s.data.map (fun c => PyVal.str (String.mk [c])))
  | _ => Option.none

/-- One iteration of the `filter` loop body: given one keyword and value,
the WHERE conditions and bound parameters this keyword contributes.  A
keyword without the separator contributes an equality condition; a
`field__op` keyword contributes the comparison of its operator; `contains`
wraps the rendered value in percent signs and emits LIKE; the membership
operator emits IN with one placeholder per element and extends the
parameters by the whole collection, skipping the generic single-value
append; an unrecognised operator contributes no condition but still appends
its value.  None models an exception (unpacking more than two parts, or
iterating a non-iterable). -/
def filterKey (key : String) (value : PyVal) : Option (List String × List PyVal) :=
  if (pySplitKey key).length ≥ 2 then
    match pySplitKey key with
    | [field, op] =>
        if op = "gt" then some ([field ++ " > ?"], [value])
        else if op = "lt" then some ([field ++ " < ?"], [value])
        else if op = "gte" then some ([field ++ " >= ?"], [value])
        else if op = "lte" then some ([field ++ " <= ?"], [value])
        else if op = "contains" then
          some ([field ++ " LIKE ?"], [PyVal.str ("%" ++ pyStr value ++ "%")])
        else if op = "in" then
          match pyIterate value with
          | some elems =>
              some ([field ++ " IN (" ++ joinSep "," (elems.map (fun _ => "?")) ++ ")"],
                elems)
          | Option.none => Option.none
        else some ([], [value])
    | _ => Option.none
  else some ([key ++ " = ?"], [value])

/-- The whole `filter` loop: conditions and parameters contributed by all
keywords, in keyword order; None models an exception part-way (the builder
state is then left unchanged, since `filter` extends its accumulators only
after the loop). -/
def filterParts : List (String × PyVal) → Option (List String × List PyVal)
  | [] => some ([], [])
  | kv :: rest =>
      match filterKey kv.1 kv.2 with
      | Option.none => Option.none
      | some cp =>
          match filterParts rest with
          | Option.none => Option.none
          | some rest2 => some (cp.1 ++ rest2.1, cp.2 ++ rest2.2)

/-- The fluent query-builder state: accumulated WHERE fragments, bound
parameters, ORDER BY fragments, LIMIT and OFFSET, plus the table name of
the owning model. -/
structure QuerySet where
  table : String
  _where : List String
  _params : List PyVal
  _order_by : List String
  _limit : Option Int
  _offset : Option Int

/-- `QuerySet.filter`: extends the accumulated conditions and parameters of
the same builder. -/
def QuerySet.filter (qs : QuerySet) (kwargs : List (String × PyVal)) : Option QuerySet :=
  match filterParts kwargs with
  | some cp => some { qs with _where := qs._where ++ cp.1, _params := qs._params ++ cp.2 }
  | Option.none => Option.none

/-- `QuerySet.order_by`: a leading minus means descending. -/
def QuerySet.order_by (qs : QuerySet) (fields : List String) : QuerySet :=
  { qs with _order_by := qs._order_by ++ fields.map (fun f =>
      if f.startsWith "-" then (f.drop 1) ++ " DESC" else f ++ " ASC") }

/-- `QuerySet.limit`: sets (or overwrites) the LIMIT value. -/
def QuerySet.limit (qs : QuerySet) (n : Int) : QuerySet := { qs with _limit := some n }

/-- `QuerySet.offset`: sets (or overwrites) the OFFSET value. -/
def QuerySet.offset (qs : QuerySet) (n : Int) : QuerySet := { qs with _offset := some n }

/-- `QuerySet._build_query`: the SELECT statement and its parameters, in
the fixed composition order SELECT, FROM, WHERE, ORDER BY, LIMIT, OFFSET.
The LIMIT and OFFSET clauses are appended whenever the corresponding value
is set. -/
def QuerySet.build_query (qs : QuerySet) (select : String) : String × List PyVal :=
  let q := "SELECT " ++ select ++ " FROM " ++ qs.table
  let q := if qs._where = [] then q else q ++ " WHERE " ++ joinSep " AND " qs._where
  let q := if qs._order_by = [] then q
    else q ++ " ORDER BY " ++ joinSep ", " qs._order_by
  let q := match qs._limit with
    | some n => q ++ " LIMIT " ++ toString n
    | Option.none => q
  let q := match qs._offset with
    | some n => q ++ " OFFSET " ++ toString n
    | Option.none => q
  (q, qs._params)

/-- The query string built and run by `QuerySet.count`. -/
def QuerySet.count_query (qs : QuerySet) : String := (qs.build_query "COUNT(*)").1

/-- The SELECT COUNT variant the specification describes: the same
accumulated WHERE (and ORDER BY) clause with the LIMIT and OFFSET clauses
omitted. -/
def count_query_spec (qs : QuerySet) : String :=
  "SELECT COUNT(*) FROM " ++ qs.table ++
    (if qs._where = [] then "" else " WHERE " ++ joinSep " AND " qs._where) ++
    (if qs._order_by = [] then "" else " ORDER BY " ++ joinSep ", " qs._order_by)

/-- The LIMIT clause text for a given limit state. -/
def limitFrag : Option Int → String
  | Option.none => ""
  | some n => " LIMIT " ++ toString n

/-- The OFFSET clause text for a given offset state. -/
def offsetFrag : Option Int → String
  | Option.none => ""
  | some n => " OFFSET " ++ toString n

/-- SQLite application of LIMIT and OFFSET to the selected rows: OFFSET
drops (a negative offset drops nothing), LIMIT then takes unless negative;
OFFSET without LIMIT is a syntax error (None). -/
def applyLimitOffset (rows : List Row) (lim off : Option Int) : Option (List Row) :=
  match lim, off with
  | Option.none, some _ => Option.none
  | Option.none, Option.none => some rows
  | some n, off2 =>
      let rows2 := match off2 with
        | some m => rows.drop m.toNat
        | Option.none => rows
      some (if n < 0 then rows2 else rows2.take n.toNat)

/-- `QuerySet.all`: runs the built query and maps every row through the
model constructor.  The engine evaluation of the WHERE clause over a row
and the ORDER BY sorting are abstract parameters; LIMIT and OFFSET follow
the SQLite semantics of `applyLimitOffset`. -/
def QuerySet.all (qs : QuerySet) (tbl : List Row)
    (evalW : List String → List PyVal → Row → Bool)
    (sortRows : List String → List Row → List Row) : Option (List Instance) :=
  match applyLimitOffset (sortRows qs._order_by (tbl.filter (evalW qs._where qs._params)))
      qs._limit qs._offset with
  | some rows => some (rows.map modelInit)
  | Option.none => Option.none

/-- `QuerySet.first`: sets the limit of the same builder to 1, reruns
`all`, and returns its head (None when empty) together with the builder in
its mutated state. -/
def QuerySet.first (qs : QuerySet) (tbl : List Row)
    (evalW : List String → List PyVal → Row → Bool)
    (sortRows : List String → List Row → List Row) :
    Option (Option Instance) × QuerySet :=
  let qs1 := { qs with _limit := some 1 }
  match qs1.all tbl evalW sortRows with
  | some rows => (some rows.head?, qs1)
  | Option.none => (Option.none, qs1)

theorem digitChar_ne_qmark (m : Nat) : Nat.digitChar m ≠ '?' := by
  rcases m with _|_|_|_|_|_|_|_|_|_|_|_|_|_|_|_|m
  case succ => simp [Nat.digitChar]
  all_goals decide

theorem toDigitsCore_ne_qmark (b f n : Nat) (ds : List Char) (h : '?' ∉ ds) :
    '?' ∉ Nat.toDigitsCore b f n ds := by
  induction f generalizing n ds with
  | zero => simpa [Nat.toDigitsCore] using h
  | succ f ih =>
    simp only [Nat.toDigitsCore]
    split
    · intro hm
      rcases List.mem_cons.mp hm with h1 | h1
      · exact digitChar_ne_qmark (n % b) h1.symm
      · exact h h1
    · apply ih
      intro hm
      rcases List.mem_cons.mp hm with h1 | h1
      · exact digitChar_ne_qmark (n % b) h1.symm
      · exact h h1

theorem nat_repr_ne_qmark (n : Nat) : '?' ∉ (Nat.repr n).data := by
  simp only [Nat.repr, Nat.toDigits, List.asString]
  exact toDigitsCore_ne_qmark 10 (n + 1) n [] (by simp)

theorem int_toString_ne_qmark (n : Int) : '?' ∉ (toString n).data := by
  show '?' ∉ (Int.repr n).data
  cases n with
  | ofNat m => exact nat_repr_ne_qmark m
  | negSucc m =>
    simp only [Int.repr, String.data_append]
    intro hm
    rcases List.mem_append.mp hm with h1 | h1
    · simp at h1
    · exact nat_repr_ne_qmark _ h1

theorem countQ_append (a b : String) : countQ (a ++ b) = countQ a + countQ b := by
  simp [countQ, String.data_append, List.count_append]

theorem countQ_eq_zero {s : String} (h : '?' ∉ s.data) : countQ s = 0 :=
  List.count_eq_zero.mpr h

theorem countQ_limitFrag (o : Option Int) : countQ (limitFrag o) = 0 := by
  cases o with
  | none => decide
  | some n =>
    rw [limitFrag, countQ_append, countQ_eq_zero (int_toString_ne_qmark n)]
    decide

theorem countQ_offsetFrag (o : Option Int) : countQ (offsetFrag o) = 0 := by
  cases o with
  | none => decide
  | some n =>
    rw [offsetFrag, countQ_append, countQ_eq_zero (int_toString_ne_qmark n)]
    decide

theorem countQ_joinSep (sep : String) (hsep : countQ sep = 0) :
    ∀ l : List String, countQ (joinSep sep l) = (l.map countQ).sum := by
  intro l
  induction l with
  | nil =>
    simp only [joinSep]
    decide
  | cons s rest ih =>
    cases rest with
    | nil => simp [joinSep]
    | cons s2 r2 =>
      simp only [joinSep] at ih ⊢
      rw [countQ_append, countQ_append, hsep, ih]
      simp [Nat.add_assoc]

theorem countQ_qmarks {α : Type} (l : List α) :
    countQ (joinSep "," (l.map (fun _ => "?"))) = l.length := by
  rw [countQ_joinSep "," (by decide)]
  simp [show countQ "?" = 1 by decide]

theorem build_query_eq (qs : QuerySet) (select : String) :
    (qs.build_query select).1 =
      "SELECT " ++ select ++ " FROM " ++ qs.table ++
        (if qs._where = [] then "" else " WHERE " ++ joinSep " AND " qs._where) ++
        (if qs._order_by = [] then "" else " ORDER BY " ++ joinSep ", " qs._order_by) ++
        limitFrag qs._limit ++ offsetFrag qs._offset := by
  unfold QuerySet.build_query limitFrag offsetFrag
  rcases qs._limit with _ | ln <;> rcases qs._offset with _ | om <;>
    split_ifs <;> simp [String.append_assoc, String.append_empty]

/-- A builder state with a limit set, on which the count query keeps the
LIMIT clause. -/
def c4qs : QuerySet :=
  { table := "users", _where := [], _params := [], _order_by := [],
    _limit := some 2, _offset := Option.none }

/-- C4 counterexample: on a builder with limit 2, the query built by
`count` is SELECT COUNT(*) FROM users LIMIT 2 — the LIMIT clause is not
omitted, so the claim that `count` builds the WHERE-only COUNT variant with
LIMIT and OFFSET omitted is false.  (With an offset of one or more the
COUNT query even returns no row, making `count` fail instead of returning
the scalar.) -/
theorem c4_count_counterexample :
    c4qs.count_query ≠ count_query_spec c4qs ∧
    c4qs.count_query = "SELECT COUNT(*) FROM users LIMIT 2" := by
  constructor
  · decide
  · decide

/-- C4 (amended): `count` builds the SELECT COUNT variant of the same
accumulated WHERE (and ORDER BY) clause, but any LIMIT and OFFSET
previously set are included in the built query, not omitted; they are
omitted exactly when they were never set. -/
theorem c4_count_query_includes_limit (qs : QuerySet) :
    qs.count_query = count_query_spec qs ++ limitFrag qs._limit ++ offsetFrag qs._offset := by
  rw [QuerySet.count_query, build_query_eq]
  simp [count_query_spec, String.append_assoc]

theorem filterParts_append (l1 l2 : List (String × PyVal))
    (c1 : List String) (p1 : List PyVal) (c2 : List String) (p2 : List PyVal)
    (h1 : filterParts l1 = some (c1, p1)) (h2 : filterParts l2 = some (c2, p2)) :
    filterParts (l1 ++ l2) = some (c1 ++ c2, p1 ++ p2) := by
  induction l1 generalizing c1 p1 with
  | nil =>
    simp only [filterParts] at h1
    cases h1
    simpa using h2
  | cons kv rest ih =>
    simp only [List.cons_append, filterParts] at h1 ⊢
    rcases hk : filterKey kv.1 kv.2 with _ | cp <;> rw [hk] at h1
    · cases h1
    · rcases hr : filterParts rest with _ | cr <;> rw [hr] at h1
      · cases h1
      · cases h1
        have hresx : filterParts (rest ++ l2) = some (cr.1 ++ c2, cr.2 ++ p2) :=
          ih cr.1 cr.2 (by rw [hr])
        simp [hresx, List.append_assoc]

theorem filterKey_in (key field : String) (xs : List PyVal)
    (hk : pySplitKey key = [field, "in"]) :
    filterKey key (PyVal.list xs) =
      some ([field ++ " IN (" ++ joinSep "," (xs.map (fun _ => "?")) ++ ")"], xs) := by
  simp [filterKey, hk, pyIterate]

/-- C3: a `filter` call whose keywords contain a membership key with a
collection of n elements succeeds with a WHERE fragment `field IN (...)`
holding exactly n placeholders, and the bound parameters are extended by
the n elements of the collection themselves (no single aggregate value is
appended for this condition); the other keywords contribute before and
after it as usual. -/
theorem c3_filter_in_placeholders (qs : QuerySet) (pre post : List (String × PyVal))
    (key field : String) (xs : List PyVal)
    (c1 : List String) (p1 : List PyVal) (c2 : List String) (p2 : List PyVal)
    (hk : pySplitKey key = [field, "in"])
    (hq : countQ field = 0)
    (hpre : filterParts pre = some (c1, p1))
    (hpost : filterParts post = some (c2, p2)) :
    qs.filter (pre ++ (key, PyVal.list xs) :: post) =
      some { qs with
        _where := qs._where ++
          (c1 ++ [field ++ " IN (" ++ joinSep "," (xs.map (fun _ => "?")) ++ ")"] ++ c2),
        _params := qs._params ++ (p1 ++ xs ++ p2) } ∧
    countQ (field ++ " IN (" ++ joinSep "," (xs.map (fun _ => "?")) ++ ")") = xs.length := by
  constructor
  · have hmid : filterParts ((key, PyVal.list xs) :: post) =
        some ([field ++ " IN (" ++ joinSep "," (xs.map (fun _ => "?")) ++ ")"] ++ c2,
          xs ++ p2) := by
      simp only [filterParts, filterKey_in key field xs hk, hpost]
    have hall := filterParts_append pre ((key, PyVal.list xs) :: post) c1 p1 _ _ hpre hmid
    simp only [QuerySet.filter, hall]
    simp [List.append_assoc]
  · rw [countQ_append, countQ_append, countQ_append, hq, countQ_qmarks,
      show countQ " IN (" = 0 by decide, show countQ ")" = 0 by decide]
    omega

/-- The builder state used by the query-builder witnesses. -/
def wqs : QuerySet :=
  { table := "users", _where := [], _params := [], _order_by := [],
    _limit := Option.none, _offset := Option.none }

theorem c3_filter_in_placeholders_witness :
    wqs.filter ([] ++ ("age__in", PyVal.list [PyVal.int 1, PyVal.int 2]) :: []) =
      some { wqs with
        _where := wqs._where ++
          ([] ++ ["age" ++ " IN (" ++
            joinSep "," (([PyVal.int 1, PyVal.int 2]).map (fun _ => "?")) ++ ")"] ++ []),
        _params := wqs._params ++ ([] ++ [PyVal.int 1, PyVal.int 2] ++ []) } ∧
    countQ ("age" ++ " IN (" ++
        joinSep "," (([PyVal.int 1, PyVal.int 2]).map (fun _ => "?")) ++ ")") =
      ([PyVal.int 1, PyVal.int 2] : List PyVal).length :=
  c3_filter_in_placeholders wqs [] [] "age__in" "age" [PyVal.int 1, PyVal.int 2]
    [] [] [] [] (by decide) (by decide) rfl rfl

/-- Total placeholder count of a list of WHERE fragments. -/
def countQList (l : List String) : Nat := (l.map countQ).sum

theorem filterKey_unknown (key field op : String) (v : PyVal)
    (hk : pySplitKey key = [field, op])
    (h1 : op ≠ "gt") (h2 : op ≠ "lt") (h3 : op ≠ "gte") (h4 : op ≠ "lte")
    (h5 : op ≠ "contains") (h6 : op ≠ "in") :
    filterKey key v = some ([], [v]) := by
  simp [filterKey, hk, h1, h2, h3, h4, h5, h6]

/-- C9: a `filter` keyword of shape field__op with an operator outside
gt, lt, gte, lte, contains, in appends its value to the bound parameters
but contributes no WHERE condition, so the query later built by
`_build_query` carries fewer placeholders than there are bound parameters
(assuming the builder was balanced before and the table name and ORDER BY
fragments are placeholder-free, as they are for real identifiers). -/
theorem c9_filter_unknown_op (qs qs2 : QuerySet) (key field op : String) (v : PyVal)
    (hk : pySplitKey key = [field, op])
    (h1 : op ≠ "gt") (h2 : op ≠ "lt") (h3 : op ≠ "gte") (h4 : op ≠ "lte")
    (h5 : op ≠ "contains") (h6 : op ≠ "in")
    (hf : qs.filter [(key, v)] = some qs2)
    (hbal : countQList qs._where = qs._params.length)
    (htable : countQ qs.table = 0) (hord : countQList qs._order_by = 0) :
    qs2._where = qs._where ∧ qs2._params = qs._params ++ [v] ∧
    countQ (qs2.build_query "*").1 < qs2._params.length := by
  have hfp : filterParts [(key, v)] = some ([], [v]) := by
    simp only [filterParts, filterKey_unknown key field op v hk h1 h2 h3 h4 h5 h6]
    simp
  rw [QuerySet.filter, hfp] at hf
  have hf2 : some { qs with _where := qs._where ++ [], _params := qs._params ++ [v] }
      = some qs2 := hf
  have hq2 : qs2 = { qs with _where := qs._where, _params := qs._params ++ [v] } := by
    cases hf2
    simp
  subst hq2
  refine ⟨rfl, rfl, ?_⟩
  rw [build_query_eq]
  simp only [countQ_append, countQ_limitFrag, countQ_offsetFrag]
  have hwf : countQ (if qs._where = [] then ""
      else " WHERE " ++ joinSep " AND " qs._where) = qs._params.length := by
    by_cases hweq : qs._where = []
    · rw [if_pos hweq]
      rw [hweq] at hbal
      simp [countQList] at hbal
      rw [← hbal]
      decide
    · rw [if_neg hweq, countQ_append,
        countQ_joinSep " AND " (by decide) qs._where]
      rw [show countQ " WHERE " = 0 by decide]
      rw [← hbal]
      simp [countQList]
  have hof : countQ (if qs._order_by = [] then ""
      else " ORDER BY " ++ joinSep ", " qs._order_by) = 0 := by
    by_cases hoeq : qs._order_by = []
    · rw [if_pos hoeq]; decide
    · rw [if_neg hoeq, countQ_append, countQ_joinSep ", " (by decide) qs._order_by]
      rw [show countQ " ORDER BY " = 0 by decide]
      simpa [countQList] using hord
  rw [hwf, hof, htable]
  rw [show countQ "SELECT " = 0 by decide, show countQ "*" = 0 by decide,
    show countQ " FROM " = 0 by decide]
  simp

theorem c9_filter_unknown_op_witness :
    wqs._where = wqs._where ∧
    (wqs._params ++ [PyVal.int 5] : List PyVal) = wqs._params ++ [PyVal.int 5] ∧
    countQ (({ wqs with _params := wqs._params ++ [PyVal.int 5] } :
        QuerySet).build_query "*").1 <
      ({ wqs with _params := wqs._params ++ [PyVal.int 5] } : QuerySet)._params.length := by
  have h := c9_filter_unknown_op wqs
    { wqs with _params := wqs._params ++ [PyVal.int 5] }
    "age__between" "age" "between" (PyVal.int 5)
    (by decide) (by decide) (by decide) (by decide) (by decide) (by decide) (by decide)
    rfl (by decide) (by decide) (by decide)
  exact ⟨rfl, rfl, h.2.2⟩

theorem first_snd (qs : QuerySet) (tbl : List Row)
    (evalW : List String → List PyVal → Row → Bool)
    (sortRows : List String → List Row → List Row) :
    (qs.first tbl evalW sortRows).2 = { qs with _limit := some 1 } := by
  unfold QuerySet.first
  rcases h : QuerySet.all { qs with _limit := some 1 } tbl evalW sortRows with _ | rows <;>
    simp [h]

theorem all_limit_one (qs : QuerySet) (tbl : List Row)
    (evalW : List String → List PyVal → Row → Bool)
    (sortRows : List String → List Row → List Row) (h : qs._limit = some 1) :
    ∃ rows, qs.all tbl evalW sortRows = some rows ∧ rows.length ≤ 1 := by
  unfold QuerySet.all applyLimitOffset
  rw [h]
  rcases qs._offset with _ | m
  · refine ⟨_, rfl, ?_⟩
    simp only [List.length_map]
    norm_num [List.length_take]
  · refine ⟨_, rfl, ?_⟩
    simp only [List.length_map]
    norm_num [List.length_take]

/-- C10: `first` mutates the builder it is called on rather than a copy:
the builder coming back from `first` has its limit permanently set to 1,
overriding any limit previously set via `limit`, so every subsequent `all`
on that same builder returns a list of at most one model instance. -/
theorem c10_first_sets_limit (qs : QuerySet) (n : Int) (tbl : List Row)
    (evalW : List String → List PyVal → Row → Bool)
    (sortRows : List String → List Row → List Row) :
    (((qs.limit n).first tbl evalW sortRows).2)._limit = some 1 ∧
    ∃ rows, (((qs.limit n).first tbl evalW sortRows).2).all tbl evalW sortRows
        = some rows ∧ rows.length ≤ 1 := by
  rw [first_snd]
  exact ⟨rfl, all_limit_one _ tbl evalW sortRows rfl⟩

/- ================================================================
   Data-access layer (ORM, src/build/lib/rango/orm.py)
   ================================================================ -/

/-- An HTTP-carrying exception: it already holds a status code and text. -/
structure HttpExc where
  status : Nat
  text : String

/-- The 500-class wrapper used for driver-level database failures. -/
def HTTPInternalServerError (msg : String) : HttpExc := ⟨500, msg⟩

/-- A database connection: the committed state, the state visible on the
connection including uncommitted changes, and the log of statements issued
to the engine.  `commit` publishes pending changes, `rollback` discards
them; the transaction is open exactly when pending and committed states
differ. -/
structure Conn (α : Type) where
  db : α
  pending : α
  log : List String

/-- `connection.rollback()`. -/
def Conn.rollback {α : Type} (c : Conn α) : Conn α := { c with pending := c.db }

/-- The params argument of `execute`: a single tuple, or a list of tuples
for bulk mode. -/
inductive ExecParams where
  | single (t : List PyVal)
  | listOf (ts : List (List PyVal))

/-- `cursor.executemany`: runs the statement once per tuple, stopping at
the first driver error. -/
def runSeq {α : Type} (runSql : String → List PyVal → α → Except String α)
    (q : String) : List (List PyVal) → α → Except String α
  | [], a => Except.ok a
  | t :: ts, a =>
      match runSql q t a with
      | Except.ok a2 => runSeq runSql q ts a2
      | Except.error e => Except.error e

/-- The statement run attempted by `ORM.execute`: bulk mode when params is
a nonempty list of tuples, a single execution otherwise (an empty list
falls through to the single path with no parameters). -/
def execRun {α : Type} (runSql : String → List PyVal → α → Except String α)
    (q : String) (params : ExecParams) (a : α) : Except String α :=
  match params with
  | .listOf (t :: ts) => runSeq runSql q (t :: ts) a
  | .listOf [] => runSql q [] a
  | .single t => runSql q t a

/-- `ORM.execute`: runs the statement(s) inside the shared mutex, commits
immediately on success, and on a driver-level failure rolls the connection
back and re-raises the error wrapped as an internal server error.  The
engine is the abstract oracle `runSql`; the statement text is logged as
issued. -/
def ORM.execute {α : Type} (runSql : String → List PyVal → α → Except String α)
    (c : Conn α) (q : String) (params : ExecParams) :
    Except HttpExc Unit × Conn α :=
  match execRun runSql q params c.pending with
  | Except.ok a => (Except.ok (), ⟨a, a, c.log ++ [q]⟩)
  | Except.error msg => (Except.error (HTTPInternalServerError msg), ⟨c.db, c.db, c.log ++ [q]⟩)

/-- C5: after any call to `execute` the connection has no open transaction
(pending equals committed); on success, including the bulk path that runs
the statement once per tuple, the run result is committed immediately and
the call returns ok; on a driver-level failure the committed state is
unchanged (rolled back) and the failure comes back wrapped as the 500-class
internal server error carrying the driver message. -/
theorem c5_execute_commit_or_rollback {α : Type}
    (runSql : String → List PyVal → α → Except String α)
    (c : Conn α) (q : String) (params : ExecParams) :
    ((ORM.execute runSql c q params).2).pending = ((ORM.execute runSql c q params).2).db ∧
    (ORM.execute runSql c q params).1 =
      (match execRun runSql q params c.pending with
       | Except.ok _ => Except.ok ()
       | Except.error msg => Except.error (HTTPInternalServerError msg)) ∧
    ((ORM.execute runSql c q params).2).db =
      (match execRun runSql q params c.pending with
       | Except.ok a => a
       | Except.error _ => c.db) ∧
    ∀ msg, (HTTPInternalServerError msg).status = 500 := by
  unfold ORM.execute
  rcases h : execRun runSql q params c.pending with msg | a <;>
    simp [HTTPInternalServerError]

/-- The Python exceptions `insert` can raise: the validation ValueError,
the KeyError of a bulk row missing a column, and a driver error (re-raised
unwrapped by `insert`). -/
inductive PyErr where
  | valueError (msg : String)
  | keyError (msg : String)
  | sqliteError (msg : String)

/-- The data argument of `insert`: a single record or a list of records. -/
inductive InsertData where
  | one (d : List (String × PyVal))
  | many (ds : List (List (String × PyVal)))

/-- The INSERT statement built from the first record's keys. -/
def insertQuery (table : String) (cols : List String) : String :=
  "INSERT INTO " ++ table ++ " (" ++ joinSep "," cols ++ ") VALUES (" ++
    joinSep "," (cols.map (fun _ => "?")) ++ ")"

/-- The value tuple of one bulk record, looked up by the first record's
columns; None models the KeyError for a missing column. -/
def rowValues (cols : List String) (item : List (String × PyVal)) : Option (List PyVal) :=
  cols.mapM (fun col => item.lookup col)

/-- `ORM.insert`: validates that the data (and, in bulk mode, its first
record) is nonempty before any SQL is built or issued, raising ValueError
otherwise; then builds one INSERT from the first record's keys, executes it
(once per record in bulk mode), commits, and returns the last inserted row
id.  Any failure rolls the connection back and re-raises. -/
def ORM.insert {α : Type} (runSql : String → List PyVal → α → Except String α)
    (lastrowid : α → Int) (c : Conn α) (table : String) (data : InsertData) :
    Except PyErr Int × Conn α :=
  match data with
  | .one [] => (Except.error (PyErr.valueError "No data provided for insert"), c.rollback)
  | .many [] => (Except.error (PyErr.valueError "No data provided for insert"), c.rollback)
  | .many ([] :: _) =>
      (Except.error (PyErr.valueError "Empty data in bulk insert"), c.rollback)
  | .one (kv :: d) =>
      let cols := (kv :: d).map Prod.fst
      let q := insertQuery table cols
      match runSql q ((kv :: d).map Prod.snd) c.pending with
      | Except.ok a => (Except.ok (lastrowid a), ⟨a, a, c.log ++ [q]⟩)
      | Except.error msg => (Except.error (PyErr.sqliteError msg), ⟨c.db, c.db, c.log ++ [q]⟩)
  | .many ((kv :: d) :: ds) =>
      let cols := (kv :: d).map Prod.fst
      let q := insertQuery table cols
      match ((kv :: d) :: ds).mapM (rowValues cols) with
      | Option.none =>
          (Except.error (PyErr.keyError "missing column in bulk insert record"), c.rollback)
      | some valss =>
          match runSeq runSql q valss c.pending with
          | Except.ok a => (Except.ok (lastrowid a), ⟨a, a, c.log ++ [q]⟩)
          | Except.error msg =>
              (Except.error (PyErr.sqliteError msg), ⟨c.db, c.db, c.log ++ [q]⟩)

/-- C6: `insert` called with an empty mapping, an empty bulk list, or a
bulk list whose first record is empty fails with the ValueError validation
error (not a malformed-SQL or driver error), issues no SQL statement to the
engine (the statement log is unchanged) and leaves the committed state
untouched: the connection is merely rolled back. -/
theorem c6_insert_empty_validation {α : Type}
    (runSql : String → List PyVal → α → Except String α) (lastrowid : α → Int)
    (c : Conn α) (table : String) (data : InsertData)
    (hdata : data = InsertData.one [] ∨ data = InsertData.many [] ∨
      ∃ ds, data = InsertData.many ([] :: ds)) :
    ((ORM.insert runSql lastrowid c table data).1 =
        Except.error (PyErr.valueError "No data provided for insert") ∨
      (ORM.insert runSql lastrowid c table data).1 =
        Except.error (PyErr.valueError "Empty data in bulk insert")) ∧
    (ORM.insert runSql lastrowid c table data).2 = c.rollback ∧
    ((ORM.insert runSql lastrowid c table data).2).log = c.log ∧
    ((ORM.insert runSql lastrowid c table data).2).db = c.db := by
  rcases hdata with rfl | rfl | ⟨ds, rfl⟩
  · exact ⟨Or.inl rfl, rfl, rfl, rfl⟩
  · exact ⟨Or.inl rfl, rfl, rfl, rfl⟩
  · exact ⟨Or.inr rfl, rfl, rfl, rfl⟩

theorem c6_insert_empty_validation_witness :
    ((ORM.insert (fun _ _ a => Except.ok a) (fun _ => 0) (⟨0, 0, []⟩ : Conn Int)
        "users" (InsertData.one [])).1 =
        Except.error (PyErr.valueError "No data provided for insert") ∨
      (ORM.insert (fun _ _ a => Except.ok a) (fun _ => 0) (⟨0, 0, []⟩ : Conn Int)
        "users" (InsertData.one [])).1 =
        Except.error (PyErr.valueError "Empty data in bulk insert")) ∧
    (ORM.insert (fun _ _ a => Except.ok a) (fun _ => 0) (⟨0, 0, []⟩ : Conn Int)
        "users" (InsertData.one [])).2 = Conn.rollback ⟨0, 0, []⟩ ∧
    ((ORM.insert (fun _ _ a => Except.ok a) (fun _ => 0) (⟨0, 0, []⟩ : Conn Int)
        "users" (InsertData.one [])).2).log = ([] : List String) ∧
    ((ORM.insert (fun _ _ a => Except.ok a) (fun _ => 0) (⟨0, 0, []⟩ : Conn Int)
        "users" (InsertData.one [])).2).db = (0 : Int) :=
  c6_insert_empty_validation (fun _ _ a => Except.ok a) (fun _ => 0) ⟨0, 0, []⟩
    "users" (InsertData.one []) (Or.inl rfl)

/- ================================================================
   Request dispatcher error normalization (src/rango/app.py, App.add_route)
   ================================================================ -/

/-- A JSON response: status code and body as key-value pairs. -/
structure JsonResponse where
  status : Nat
  body : List (String × String)

/-- The outcome of the try block of the wrapped handler: a successful
response, a declared HTTP-level exception, or any other exception with its
type name, message and formatted traceback. -/
inductive HandlerOutcome where
  | success (resp : JsonResponse)
  | httpException (e : HttpExc)
  | failure (excType msg trace : String)

/-- The exception normalization of the handler wrapper installed by
`App.add_route`: HTTP-level exceptions re-raise untouched; any other
exception becomes a 500 JSON response whose body carries the error message,
formatted traceback and exception type name in debug mode, and only the
generic message otherwise. -/
def wrappedHandler (debug : Bool) (outcome : HandlerOutcome) :
    Except HttpExc JsonResponse :=
  match outcome with
  | .success r => Except.ok r
  | .httpException e => Except.error e
  | .failure ty msg tr =>
      if debug then
        Except.ok ⟨500, [("error", msg), ("traceback", tr), ("type", ty)]⟩
      else
        Except.ok ⟨500, [("error", "Internal Server Error")]⟩

/-- C7: whenever the handler raises an exception that is not a declared
HTTP-level exception, the dispatcher returns a 500 response; in debug mode
the body is the structured payload of error message, stack trace and
exception type (the keys of the JSON object are error, traceback and type);
in non-debug mode the body is exactly the generic internal-server-error
object, independent of the exception (no internal detail leaks); declared
HTTP-level exceptions propagate untouched, and successful responses pass
through unchanged. -/
theorem c7_dispatcher_500 (ty msg tr ty2 msg2 tr2 : String) (e : HttpExc)
    (r : JsonResponse) (debug : Bool) :
    wrappedHandler true (HandlerOutcome.failure ty msg tr) =
      Except.ok ⟨500, [("error", msg), ("traceback", tr), ("type", ty)]⟩ ∧
    wrappedHandler false (HandlerOutcome.failure ty msg tr) =
      Except.ok ⟨500, [("error", "Internal Server Error")]⟩ ∧
    wrappedHandler false (HandlerOutcome.failure ty msg tr) =
      wrappedHandler false (HandlerOutcome.failure ty2 msg2 tr2) ∧
    wrappedHandler debug (HandlerOutcome.httpException e) = Except.error e ∧
    wrappedHandler debug (HandlerOutcome.success r) = Except.ok r := by
  refine ⟨rfl, rfl, rfl, ?_, ?_⟩ <;> cases debug <;> rfl

/- ================================================================
   Model layer: save (src/rango/models.py, Model.save) over a SQLite
   table whose id column is an INTEGER PRIMARY KEY rowid alias
   ================================================================ -/

/-- The integer value of the id column of a row, when present. -/
def rowIdVal (r : Row) : Option Int :=
  match r.lookup "id" with
  | some (PyVal.int n) => some n
  | _ => Option.none

/-- A table: the list of its rows in storage order. -/
abbrev Table := List Row

/-- The id column forms a row identity: distinct row column names. -/
def RowWF (r : Row) : Prop := (r.map Prod.fst).Nodup

/-- Every row of the table has distinct column names. -/
def TableWF (t : Table) : Prop := ∀ r ∈ t, RowWF r

/-- SELECT by primary key: the first row whose id equals the probe. -/
def getOneById (t : Table) (v : Int) : Option Row :=
  t.find? (fun r => decide (rowIdVal r = some v))

/-- SQL SET of one column on a row: overwrites an existing column in
place; a column not previously present is added (the model keeps rows
schemaless; schema-level errors of the engine are outside the model). -/
def setCol (r : Row) (k : String) (v : PyVal) : Row :=
  if (r.lookup k).isSome then r.map (fun kv => if kv.1 = k then (k, v) else kv)
  else r ++ [(k, v)]

/-- Application of an UPDATE payload to one row. -/
def applyData (r : Row) (data : Row) : Row :=
  data.foldl (fun r2 kv => setCol r2 kv.1 kv.2) r

/-- UPDATE table SET ... WHERE id = v. -/
def updateById (t : Table) (data : Row) (v : Int) : Table :=
  t.map (fun r => if rowIdVal r = some v then applyData r data else r)

/-- The largest rowid in use among the rows of the table, when some row
has an integer id. -/
def largestId (t : Table) : Option Int :=
  t.foldl (fun m r =>
    match rowIdVal r with
    | some n =>
        match m with
        | some m0 => some (max m0 n)
        | Option.none => some n
    | _ => m) Option.none

/-- The rowid SQLite assigns to an id-less INSERT: one more than the
largest rowid currently in use, or 1 when the table holds none.  There is
no floor at zero: with a largest rowid of -1 the assigned rowid is 0. -/
def nextRowId (t : Table) : Int :=
  match largestId t with
  | some m => m + 1
  | Option.none => 1

/-- INSERT of one record: with an explicit integer id the row is appended
and that id returned, unless the primary key is already in use; without an
id the engine assigns the next rowid and stores it in the id column.
Returns the new table and the last inserted row id. -/
def insertRow (t : Table) (data : Row) : Option (Table × Int) :=
  match data.lookup "id" with
  | some (PyVal.int v) =>
      if (getOneById t v).isSome then Option.none else some (t ++ [data], v)
  | some _ => Option.none
  | Option.none =>
      some (t ++ [("id", PyVal.int (nextRowId t)) :: data], nextRowId t)

/-- The declared metadata of one model field, as `Model.save` consumes it:
nullability, whether the field is a timestamp field, and its auto-now
flag (the SQL type and the unique and primary-key markers only matter for
table creation). -/
structure FieldSpec where
  field_type : String
  null : Bool
  unique : Bool
  primary_key : Bool
  isDateTime : Bool
  auto_now : Bool

/-- One iteration of the payload loop of `save`: skips the identity when
the instance has none, reads the attribute (with a None default), stamps
the current time into auto-now timestamp fields, and keeps the value when
it is not None or the field is nullable. -/
def buildField (i : Instance) (now : PyVal) (nf : String × FieldSpec) :
    Option (String × PyVal) :=
  if nf.1 = "id" ∧ i.id = Option.none then Option.none
  else
    let v0 := if nf.1 = "id" then
        (match i.id with | some n => PyVal.int n | Option.none => PyVal.none)
      else ((i.attrs.lookup nf.1).getD PyVal.none)
    let v := if nf.2.isDateTime && nf.2.auto_now then now else v0
    if v.isNotNone || nf.2.null then some (nf.1, v) else Option.none

/-- The write payload `save` builds, iterating the declared fields. -/
def buildData (fields : List (String × FieldSpec)) (i : Instance) (now : PyVal) : Row :=
  fields.filterMap (buildField i now)

/-- The refresh step of `save`: re-reads the full row by identity and
copies it onto the instance; a missing row is the failed-save exception. -/
def saveRefresh (i : Instance) (db : Table) (v : Int) : Option (Instance × Table) :=
  match getOneById db v with
  | some row => some (applyRow i row, db)
  | Option.none => Option.none

/-- The insert-new-record arm of `save`: deletes the identity from the
payload, inserts, records the generated id and refreshes. -/
def saveInsertFresh (data : Row) (i : Instance) (db : Table) :
    Option (Instance × Table) :=
  match insertRow db (data.filter (fun kv => kv.1 ≠ "id")) with
  | some (db2, rid) => saveRefresh i db2 rid
  | Option.none => Option.none

/-- `Model.save`: builds the payload; with a truthy identity it probes
existence by primary key and updates when found, inserting with the
caller-supplied identity otherwise; without a truthy identity it inserts a
new record; afterwards the instance is refreshed from the stored row.
None models the exception paths (failed insert, failed refresh); the
statements issued are modelled by their effect on the table. -/
def Model.save (fields : List (String × FieldSpec)) (now : PyVal) (i : Instance)
    (db : Table) : Option (Instance × Table) :=
  let data := buildData fields i now
  match i.id with
  | some v =>
      if v = 0 then saveInsertFresh data i db
      else
        match getOneById db v with
        | some _ => saveRefresh i (updateById db data v) v
        | Option.none =>
            match insertRow db data with
            | some (db2, rid) => saveRefresh i db2 rid
            | Option.none => Option.none
  | Option.none => saveInsertFresh data i db

theorem lookup_cons_self {β : Type} (k : String) (v : β) (es : List (String × β)) :
    List.lookup k ((k, v) :: es) = some v := by
  simp [List.lookup_cons]

theorem lookup_cons_ne {β : Type} {k k2 : String} (v : β) (es : List (String × β))
    (h : k2 ≠ k) : List.lookup k2 ((k, v) :: es) = List.lookup k2 es := by
  have hb : (k2 == k) = false := beq_eq_false_iff_ne.mpr h
  simp [List.lookup_cons, hb]

theorem lookup_none_of_not_mem {β : Type} {r : List (String × β)} {k : String}
    (h : k ∉ r.map Prod.fst) : r.lookup k = Option.none := by
  induction r with
  | nil => rfl
  | cons kv rest ih =>
    simp only [List.map_cons, List.mem_cons] at h
    push_neg at h
    rcases kv with ⟨k1, v1⟩
    rw [lookup_cons_ne v1 rest h.1]
    exact ih h.2

theorem not_mem_of_lookup_none {β : Type} {r : List (String × β)} {k : String}
    (h : r.lookup k = Option.none) : k ∉ r.map Prod.fst := by
  induction r with
  | nil => simp
  | cons kv rest ih =>
    rcases kv with ⟨k1, v1⟩
    by_cases hk : k = k1
    · subst hk
      rw [lookup_cons_self] at h
      cases h
    · rw [lookup_cons_ne v1 rest hk] at h
      simpa [hk] using ih h

theorem map_setCol_lookup (k : String) (v : PyVal) (k2 : String) :
    ∀ r : Row, (r.map (fun kv => if kv.1 = k then (k, v) else kv)).lookup k2 =
      if k2 = k then (r.lookup k).map (fun _ => v) else r.lookup k2 := by
  intro r
  induction r with
  | nil => by_cases h : k2 = k <;> simp [h]
  | cons kv rest ih =>
    rcases kv with ⟨k1, v1⟩
    simp only [List.map_cons]
    by_cases hk1 : k1 = k
    · subst hk1
      rw [show (if ((k1, v1) : String × PyVal).1 = k1 then (k1, v) else (k1, v1)) = (k1, v)
        from by simp]
      by_cases h2 : k2 = k1
      · subst h2
        rw [lookup_cons_self, lookup_cons_self, if_pos rfl]
        rfl
      · rw [lookup_cons_ne v _ h2, lookup_cons_ne v1 rest h2, ih]
        simp [h2]
    · rw [show (if k1 = k then (k, v) else (k1, v1)) = (k1, v1) from by simp [hk1]]
      have hkk1 : k ≠ k1 := fun he => hk1 he.symm
      rw [show List.lookup k ((k1, v1) :: rest) = List.lookup k rest
        from lookup_cons_ne v1 rest hkk1]
      by_cases h2 : k2 = k1
      · subst h2
        rw [lookup_cons_self, if_neg hk1, lookup_cons_self]
      · rw [lookup_cons_ne v1 _ h2, lookup_cons_ne v1 rest h2, ih]

theorem lookup_append_single {β : Type} (k k2 : String) (v : β) :
    ∀ r : List (String × β), (r ++ [(k, v)]).lookup k2 =
      (match r.lookup k2 with
       | some w => some w
       | Option.none => if k2 = k then some v else Option.none) := by
  intro r
  induction r with
  | nil =>
    by_cases h : k2 = k
    · subst h; simp [lookup_cons_self]
    · simp [lookup_cons_ne v [] h, h, List.lookup, beq_eq_false_iff_ne.mpr h]
  | cons kv rest ih =>
    rcases kv with ⟨k1, v1⟩
    by_cases h2 : k2 = k1
    · subst h2
      simp [lookup_cons_self]
    · rw [List.cons_append, lookup_cons_ne v1 _ h2, lookup_cons_ne v1 rest h2, ih]

theorem setCol_lookup (r : Row) (k : String) (v : PyVal) (k2 : String) :
    (setCol r k v).lookup k2 = if k2 = k then some v else r.lookup k2 := by
  unfold setCol
  by_cases hp : (r.lookup k).isSome
  · rw [if_pos hp, map_setCol_lookup]
    by_cases h2 : k2 = k
    · rw [if_pos h2, if_pos h2]
      obtain ⟨w, hw⟩ := Option.isSome_iff_exists.mp hp
      rw [hw]
      rfl
    · rw [if_neg h2, if_neg h2]
  · rw [if_neg hp, lookup_append_single]
    have hnone : r.lookup k = Option.none := by
      rcases h : r.lookup k with _ | w
      · rfl
      · rw [h] at hp; simp at hp
    by_cases h2 : k2 = k
    · subst h2
      rw [hnone, if_pos rfl]
    · rcases h : r.lookup k2 with _ | w <;> simp [h, h2]

theorem setCol_keys_of_present (r : Row) (k : String) (v : PyVal)
    (hp : (r.lookup k).isSome) : (setCol r k v).map Prod.fst = r.map Prod.fst := by
  unfold setCol
  rw [if_pos hp, List.map_map]
  apply List.map_congr_left
  intro kv _
  by_cases h : kv.1 = k
  · simp [h]
  · simp [h]

theorem setCol_RowWF (r : Row) (k : String) (v : PyVal) (h : RowWF r) :
    RowWF (setCol r k v) := by
  unfold setCol
  by_cases hp : (r.lookup k).isSome
  · rw [if_pos hp]
    unfold RowWF
    have := setCol_keys_of_present r k v hp
    unfold setCol at this
    rw [if_pos hp] at this
    rw [this]
    exact h
  · rw [if_neg hp]
    unfold RowWF
    rw [List.map_append]
    have hnone : r.lookup k = Option.none := by
      rcases hh : r.lookup k with _ | w
      · rfl
      · rw [hh] at hp; simp at hp
    have hnm : k ∉ r.map Prod.fst := not_mem_of_lookup_none hnone
    simp [List.nodup_append, hnm]
    exact h

theorem applyData_lookup (k2 : String) :
    ∀ (data : Row) (r : Row), (data.map Prod.fst).Nodup →
      (applyData r data).lookup k2 =
        (match data.lookup k2 with
         | some w => some w
         | Option.none => r.lookup k2) := by
  intro data
  induction data with
  | nil => intro r _; rfl
  | cons kv rest ih =>
    intro r hnd
    rcases kv with ⟨kd, vd⟩
    simp only [List.map_cons, List.nodup_cons] at hnd
    have hstep : applyData r ((kd, vd) :: rest) = applyData (setCol r kd vd) rest := rfl
    rw [hstep, ih (setCol r kd vd) hnd.2]
    by_cases h2 : k2 = kd
    · subst h2
      rw [lookup_cons_self]
      have hrest : rest.lookup k2 = Option.none :=
        lookup_none_of_not_mem hnd.1
      rw [hrest, setCol_lookup, if_pos rfl]
    · rw [lookup_cons_ne vd rest h2]
      rcases hr : rest.lookup k2 with _ | w
      · rw [setCol_lookup, if_neg h2]
      · rfl

theorem applyData_RowWF (data : Row) :
    ∀ r : Row, RowWF r → RowWF (applyData r data) := by
  induction data with
  | nil => intro r h; exact h
  | cons kv rest ih =>
    intro r h
    have hstep : applyData r (kv :: rest) = applyData (setCol r kv.1 kv.2) rest := rfl
    rw [hstep]
    exact ih _ (setCol_RowWF r kv.1 kv.2 h)

theorem rowIdVal_applyData_none (r data : Row) (hnd : (data.map Prod.fst).Nodup)
    (h : data.lookup "id" = Option.none) :
    rowIdVal (applyData r data) = rowIdVal r := by
  unfold rowIdVal
  rw [applyData_lookup "id" data r hnd, h]

theorem rowIdVal_applyData_some (r data : Row) (n : Int)
    (hnd : (data.map Prod.fst).Nodup)
    (h : data.lookup "id" = some (PyVal.int n)) :
    rowIdVal (applyData r data) = some n := by
  unfold rowIdVal
  rw [applyData_lookup "id" data r hnd, h]

theorem applyRow_id_not_mem : ∀ (row : Row) (i : Instance),
    "id" ∉ row.map Prod.fst → (applyRow i row).id = i.id := by
  intro row
  induction row with
  | nil => intro i _; rfl
  | cons kv rest ih =>
    intro i h
    simp only [List.map_cons, List.mem_cons] at h
    push_neg at h
    have hk : kv.1 ≠ "id" := fun he => h.1 he.symm
    have hstep : applyRow i (kv :: rest) =
        applyRow { i with attrs := setAttrVal i.attrs kv.1 kv.2 } rest := by
      unfold applyRow
      simp [List.foldl_cons, hk]
    rw [hstep]
    exact ih _ h.2

theorem applyRow_id_of_lookup : ∀ (row : Row) (i : Instance) (pv : PyVal),
    RowWF row → row.lookup "id" = some pv →
    (applyRow i row).id =
      (match pv with | PyVal.int n => some n | _ => Option.none) := by
  intro row
  induction row with
  | nil => intro i pv _ h; cases h
  | cons kv rest ih =>
    intro i pv hwf h
    rcases kv with ⟨k1, v1⟩
    unfold RowWF at hwf
    simp only [List.map_cons, List.nodup_cons] at hwf
    by_cases hk : k1 = "id"
    · subst hk
      rw [lookup_cons_self] at h
      injection h with h
      subst h
      have hstep : applyRow i (("id", v1) :: rest) =
          applyRow { i with id := match v1 with | PyVal.int n => some n | _ => Option.none }
            rest := by
        unfold applyRow
        simp [List.foldl_cons]
      rw [hstep, applyRow_id_not_mem rest _ hwf.1]
    · have hk2 : k1 ≠ "id" := hk
      rw [lookup_cons_ne v1 rest (fun he => hk he.symm)] at h
      have hstep : applyRow i ((k1, v1) :: rest) =
          applyRow { i with attrs := setAttrVal i.attrs k1 v1 } rest := by
        unfold applyRow
        simp [List.foldl_cons, hk2]
      rw [hstep]
      exact ih _ pv hwf.2 h

theorem getOne_mem (t : Table) (v : Int) (r : Row) (h : getOneById t v = some r) :
    r ∈ t ∧ rowIdVal r = some v := by
  refine ⟨List.mem_of_find?_eq_some h, ?_⟩
  have := List.find?_some h
  exact of_decide_eq_true this

theorem getOne_none (t : Table) (v : Int) (h : getOneById t v = Option.none) :
    ∀ r ∈ t, rowIdVal r ≠ some v := by
  intro r hr
  have := List.find?_eq_none.mp h r hr
  intro he
  exact this (decide_eq_true he)

theorem getOne_append_right (t : Table) (v : Int) (r : Row)
    (h : getOneById t v = Option.none) :
    getOneById (t ++ [r]) v = if rowIdVal r = some v then some r else Option.none := by
  unfold getOneById at h ⊢
  rw [List.find?_append, h]
  simp only [Option.none_or]
  by_cases hr : rowIdVal r = some v
  · simp [List.find?, hr]
  · simp [List.find?, hr]

theorem getOne_update_isSome (data : Row) (v : Int)
    (hnd : (data.map Prod.fst).Nodup)
    (hd : data.lookup "id" = Option.none ∨ data.lookup "id" = some (PyVal.int v)) :
    ∀ t : Table, (getOneById t v).isSome →
      (getOneById (updateById t data v) v).isSome := by
  intro t
  induction t with
  | nil => intro h; simp [getOneById, List.find?] at h
  | cons r0 rest ih =>
    intro h
    unfold updateById
    rw [List.map_cons]
    by_cases hr : rowIdVal r0 = some v
    · rw [if_pos hr]
      have hid : rowIdVal (applyData r0 data) = some v := by
        rcases hd with hd | hd
        · rw [rowIdVal_applyData_none r0 data hnd hd]; exact hr
        · exact rowIdVal_applyData_some r0 data v hnd hd
      unfold getOneById
      rw [List.find?_cons_of_pos]
      · rfl
      · exact decide_eq_true hid
    · rw [if_neg hr]
      unfold getOneById at h ⊢
      rw [List.find?_cons_of_neg] at h
      · rw [List.find?_cons_of_neg]
        · exact ih h
        · simp [hr]
      · simp [hr]

theorem updateById_WF (t : Table) (data : Row) (v : Int)
    (hWF : TableWF t) (_hd : RowWF data) : TableWF (updateById t data v) := by
  intro r2 hr2
  unfold updateById at hr2
  obtain ⟨r, hr, rfl⟩ := List.mem_map.mp hr2
  by_cases h : rowIdVal r = some v
  · simpa [h] using applyData_RowWF data r (hWF r hr)
  · simpa [h] using hWF r hr

theorem buildField_key (i : Instance) (now : PyVal) (nf : String × FieldSpec)
    (p : String × PyVal) (h : buildField i now nf = some p) : p.1 = nf.1 := by
  unfold buildField at h
  by_cases h1 : nf.1 = "id" ∧ i.id = Option.none
  · rw [if_pos h1] at h; cases h
  · rw [if_neg h1] at h
    dsimp only at h
    repeat' split at h
    all_goals first
      | (injection h with h; rw [← h])
      | cases h

theorem filterMap_keys_sublist {β : Type} (g : String × β → Option (String × PyVal))
    (hg : ∀ a p, g a = some p → p.1 = a.1) :
    ∀ l : List (String × β), ((l.filterMap g).map Prod.fst).Sublist (l.map Prod.fst) := by
  intro l
  induction l with
  | nil => simp
  | cons a rest ih =>
    rw [List.filterMap_cons, List.map_cons]
    rcases hga : g a with _ | p
    · exact List.Sublist.cons a.1 ih
    · rw [List.map_cons, hg a p hga]
      exact List.Sublist.cons₂ a.1 ih

theorem buildData_keys_sublist (fields : List (String × FieldSpec)) (i : Instance)
    (now : PyVal) :
    ((buildData fields i now).map Prod.fst).Sublist (fields.map Prod.fst) :=
  filterMap_keys_sublist (buildField i now) (buildField_key i now) fields

theorem buildData_RowWF (fields : List (String × FieldSpec)) (i : Instance)
    (now : PyVal) (hnd : (fields.map Prod.fst).Nodup) :
    RowWF (buildData fields i now) :=
  List.Nodup.sublist (buildData_keys_sublist fields i now) hnd

theorem buildField_id_some (i : Instance) (now : PyVal) (nf : String × FieldSpec)
    (n : Int) (hid : nf.1 = "id") (hii : i.id = some n)
    (hauto : (nf.2.isDateTime && nf.2.auto_now) = false) :
    buildField i now nf = some (nf.1, PyVal.int n) := by
  unfold buildField
  rw [if_neg (by simp [hii])]
  dsimp only
  rw [if_pos hid, hii, hauto]
  simp [PyVal.isNotNone]

theorem buildData_lookup_id (fields : List (String × FieldSpec)) (i : Instance)
    (now : PyVal) (hnd : (fields.map Prod.fst).Nodup)
    (hfid : ∀ nf ∈ fields, nf.1 = "id" → (nf.2.isDateTime && nf.2.auto_now) = false) :
    (buildData fields i now).lookup "id" = Option.none ∨
    ∃ n, i.id = some n ∧ (buildData fields i now).lookup "id" = some (PyVal.int n) := by
  induction fields with
  | nil => exact Or.inl rfl
  | cons nf rest ih =>
    simp only [List.map_cons, List.nodup_cons] at hnd
    have hrest := ih hnd.2 (fun x hx => hfid x (List.mem_cons_of_mem nf hx))
    have hstep : buildData (nf :: rest) i now =
        (match buildField i now nf with
         | some p => p :: buildData rest i now
         | Option.none => buildData rest i now) := by
      unfold buildData
      rw [List.filterMap_cons]
      rcases buildField i now nf with _ | p <;> rfl
    by_cases hid : nf.1 = "id"
    · have hnorest : (buildData rest i now).lookup "id" = Option.none := by
        apply lookup_none_of_not_mem
        intro hmem
        exact (hid ▸ hnd.1) ((buildData_keys_sublist rest i now).subset hmem)
      rcases hii : i.id with _ | n
      · have hnone : buildField i now nf = Option.none := by
          unfold buildField
          rw [if_pos ⟨hid, hii⟩]
        rw [hstep, hnone]
        exact Or.inl hnorest
      · have hsome := buildField_id_some i now nf n hid hii (hfid nf (by simp) hid)
        rw [hstep, hsome]
        refine Or.inr ⟨n, rfl, ?_⟩
        rw [hid, lookup_cons_self]
    · rcases hbf : buildField i now nf with _ | p
      · rw [hstep, hbf]
        exact hrest
      · rw [hstep, hbf]
        have hp1 : p.1 = nf.1 := buildField_key i now nf p hbf
        have hne : ("id" : String) ≠ p.1 := by rw [hp1]; exact fun he => hid he.symm
        rcases p with ⟨pk, pv⟩
        rw [lookup_cons_ne pv _ hne]
        exact hrest

theorem rowIdVal_lookup (r : Row) (v : Int) (h : rowIdVal r = some v) :
    r.lookup "id" = some (PyVal.int v) := by
  unfold rowIdVal at h
  rcases hl : r.lookup "id" with _ | pv
  · rw [hl] at h; cases h
  · rw [hl] at h
    rcases pv with n | s | _ | xs
    · injection h with h
      rw [h]
    · cases h
    · cases h
    · cases h

theorem getOne_none_intro (t : Table) (v : Int)
    (h : ∀ r ∈ t, rowIdVal r ≠ some v) : getOneById t v = Option.none := by
  apply List.find?_eq_none.mpr
  intro r hr
  simpa using h r hr

theorem saveRefresh_success (i : Instance) (db2 : Table) (v : Int) (i1 : Instance)
    (db1 : Table) (hWF : TableWF db2)
    (h : saveRefresh i db2 v = some (i1, db1)) :
    db1 = db2 ∧ i1.id = some v ∧ (getOneById db2 v).isSome := by
  unfold saveRefresh at h
  rcases hg : getOneById db2 v with _ | row
  · rw [hg] at h; cases h
  · rw [hg] at h
    injection h with h
    injection h with hA hB
    obtain ⟨hmem, hrid⟩ := getOne_mem db2 v row hg
    have hlk := rowIdVal_lookup row v hrid
    have hidv := applyRow_id_of_lookup row i (PyVal.int v) (hWF row hmem) hlk
    refine ⟨hB.symm, by rw [← hA, hidv], ?_⟩
    simp [hg]


theorem lookup_filter_ne_none {β : Type} (k : String) (data : List (String × β)) :
    (data.filter (fun kv => kv.1 ≠ k)).lookup k = Option.none := by
  apply lookup_none_of_not_mem
  intro hmem
  obtain ⟨kv, hkv, hfst⟩ := List.mem_map.mp hmem
  have := (List.mem_filter.mp hkv).2
  rw [hfst] at this
  simp at this

theorem filter_RowWF (data : Row) (p : String × PyVal → Bool) (h : RowWF data) :
    RowWF (data.filter p) :=
  List.Nodup.sublist ((List.filter_sublist data).map Prod.fst) h

theorem insert_shape (t : Table) (data : Row) (t2 : Table) (rid : Int)
    (hWF : TableWF t) (hd : RowWF data)
    (h : insertRow t data = some (t2, rid)) :
    TableWF t2 ∧
    (data.lookup "id" = some (PyVal.int rid) ∨
      (data.lookup "id" = Option.none ∧ rid = nextRowId t)) := by
  unfold insertRow at h
  rcases hl : data.lookup "id" with _ | pv
  · rw [hl] at h
    injection h with h
    injection h with hA hB
    have ht2 : t2 = t ++ [("id", PyVal.int (nextRowId t)) :: data] := hA.symm
    have hrid : rid = nextRowId t := hB.symm
    constructor
    · rw [ht2]
      intro r hr
      rcases List.mem_append.mp hr with hr | hr
      · exact hWF r hr
      · rcases List.mem_singleton.mp hr with rfl
        unfold RowWF
        rw [List.map_cons]
        refine List.Nodup.cons ?_ hd
        exact fun hm => (not_mem_of_lookup_none hl) hm
    · exact Or.inr ⟨rfl, hrid⟩
  · rcases pv with n | s | _ | xs
    · rw [hl] at h
      dsimp only at h
      by_cases hex : (getOneById t n).isSome
      · rw [if_pos hex] at h; cases h
      · rw [if_neg hex] at h
        injection h with h
        injection h with hA hB
        have ht2 : t2 = t ++ [data] := hA.symm
        have hrid : rid = n := hB.symm
        constructor
        · rw [ht2]
          intro r hr
          rcases List.mem_append.mp hr with hr | hr
          · exact hWF r hr
          · rcases List.mem_singleton.mp hr with rfl
            exact hd
        · rw [hrid]
          exact Or.inl rfl
    · rw [hl] at h; cases h
    · rw [hl] at h; cases h
    · rw [hl] at h; cases h

theorem fresh_success (fields : List (String × FieldSpec)) (now : PyVal)
    (i : Instance) (db : Table) (i1 : Instance) (db1 : Table)
    (hnd : (fields.map Prod.fst).Nodup) (hWF : TableWF db)
    (h : saveInsertFresh (buildData fields i now) i db = some (i1, db1)) :
    TableWF db1 ∧ ∃ rid, i1.id = some rid ∧ (getOneById db1 rid).isSome := by
  unfold saveInsertFresh at h
  set d2 := (buildData fields i now).filter (fun kv => kv.1 ≠ "id") with hd2
  have hl : d2.lookup "id" = Option.none := lookup_filter_ne_none "id" _
  have hd2wf : RowWF d2 :=
    filter_RowWF _ _ (buildData_RowWF fields i now hnd)
  rcases hins : insertRow db d2 with _ | p
  · rw [hins] at h; cases h
  · rw [hins] at h
    rcases p with ⟨db2, rid⟩
    obtain ⟨hWF2, hsh⟩ := insert_shape db d2 db2 rid hWF hd2wf hins
    obtain ⟨hdb1, hid1, hsome⟩ := saveRefresh_success i db2 rid i1 db1 hWF2 h
    exact ⟨by rw [hdb1]; exact hWF2, rid, hid1, by rw [hdb1]; exact hsome⟩

theorem save_success (fields : List (String × FieldSpec)) (now : PyVal) (i : Instance)
    (db : Table) (i1 : Instance) (db1 : Table)
    (hnd : (fields.map Prod.fst).Nodup) (hWF : TableWF db)
    (h : Model.save fields now i db = some (i1, db1)) :
    TableWF db1 ∧ ∃ rid, i1.id = some rid ∧ (getOneById db1 rid).isSome := by
  unfold Model.save at h
  rcases hii : i.id with _ | v
  · rw [hii] at h
    exact fresh_success fields now i db i1 db1 hnd hWF h
  · rw [hii] at h
    dsimp only at h
    by_cases hv0 : v = 0
    · rw [if_pos hv0] at h
      exact fresh_success fields now i db i1 db1 hnd hWF h
    · rw [if_neg hv0] at h
      rcases hpr : getOneById db v with _ | r0
      · rw [hpr] at h
        rcases hins : insertRow db (buildData fields i now) with _ | p
        · rw [hins] at h; cases h
        · rw [hins] at h
          rcases p with ⟨db2, rid⟩
          obtain ⟨hWF2, _⟩ := insert_shape db (buildData fields i now) db2 rid hWF
            (buildData_RowWF fields i now hnd) hins
          obtain ⟨hdb1, hid1, hsome⟩ := saveRefresh_success i db2 rid i1 db1 hWF2 h
          exact ⟨by rw [hdb1]; exact hWF2, rid, hid1, by rw [hdb1]; exact hsome⟩
      · rw [hpr] at h
        have hWF2 : TableWF (updateById db (buildData fields i now) v) :=
          updateById_WF db _ v hWF (buildData_RowWF fields i now hnd)
        obtain ⟨hdb1, hid1, hsome⟩ := saveRefresh_success i _ v i1 db1 hWF2 h
        exact ⟨by rw [hdb1]; exact hWF2, v, hid1, by rw [hdb1]; exact hsome⟩

/-- C2 (amended): when a first `save` has succeeded and assigned the
instance a NONZERO identity, a second `save` with no field changes finds a
truthy identity, probes existence by primary key successfully, and
performs an UPDATE of that row rather than a second INSERT: the resulting
table is exactly the by-id update of the stored table, so its row count
equals the count after the first save.  The nonzero proviso is necessary:
SQLite assigns the next rowid with no floor at zero, so over a table whose
largest rowid is -1 the first save assigns identity 0, which is falsy for
the truthiness test of `save`, and the second save inserts instead (see
the counterexample).  Hypotheses: the declared field names are distinct,
the rows of the initial table have distinct column names, and the identity
field is not an auto-now timestamp. -/
theorem c2_save_twice_updates (fields : List (String × FieldSpec))
    (now1 now2 : PyVal) (i i1 : Instance) (db db1 : Table)
    (hnd : (fields.map Prod.fst).Nodup) (hWF : TableWF db)
    (hfid : ∀ nf ∈ fields, nf.1 = "id" → (nf.2.isDateTime && nf.2.auto_now) = false)
    (h1 : Model.save fields now1 i db = some (i1, db1))
    (hnz : i1.id.getD 0 ≠ 0) :
    i1.id = some (i1.id.getD 0) ∧
    (getOneById db1 (i1.id.getD 0)).isSome ∧
    (Model.save fields now2 i1 db1).map Prod.snd =
      some (updateById db1 (buildData fields i1 now2) (i1.id.getD 0)) ∧
    (updateById db1 (buildData fields i1 now2) (i1.id.getD 0)).length = db1.length := by
  obtain ⟨hWF1, rid, hid, hsome⟩ :=
    save_success fields now1 i db i1 db1 hnd hWF h1
  have hgd : i1.id.getD 0 = rid := by rw [hid]; rfl
  rw [hgd] at hnz ⊢
  refine ⟨by rw [hid], hsome, ?_, by simp [updateById]⟩
  unfold Model.save
  rw [hid]
  dsimp only
  rw [if_neg hnz]
  obtain ⟨r0, hr0⟩ := Option.isSome_iff_exists.mp hsome
  rw [hr0]
  have hd2 : (buildData fields i1 now2).lookup "id" = Option.none ∨
      (buildData fields i1 now2).lookup "id" = some (PyVal.int rid) := by
    rcases buildData_lookup_id fields i1 now2 hnd hfid with hb | ⟨n, hbn, hb⟩
    · exact Or.inl hb
    · rw [hid] at hbn
      injection hbn with hbn
      rw [hbn]
      exact Or.inr hb
  have hupd := getOne_update_isSome (buildData fields i1 now2) rid
    (buildData_RowWF fields i1 now2 hnd) hd2 db1 hsome
  obtain ⟨row2, hrow2⟩ := Option.isSome_iff_exists.mp hupd
  unfold saveRefresh
  rw [hrow2]
  rfl

/-- The identity field of the witness model: an INTEGER PRIMARY KEY. -/
def wFieldId : FieldSpec := ⟨"INTEGER", false, false, true, false, false⟩

/-- The text field of the witness model. -/
def wFieldName : FieldSpec := ⟨"TEXT", false, false, false, false, false⟩

/-- The declared fields of the witness model. -/
def wFields : List (String × FieldSpec) := [("id", wFieldId), ("name", wFieldName)]

/-- A fresh unsaved instance of the witness model. -/
def wInst0 : Instance := ⟨Option.none, [("name", PyVal.str "Ann")]⟩

/-- The instance after its first save: identity 1 assigned. -/
def wInst1 : Instance := ⟨some 1, [("name", PyVal.str "Ann")]⟩

/-- The table after the first save: one row. -/
def wDb1 : Table := [[("id", PyVal.int 1), ("name", PyVal.str "Ann")]]

theorem c2_save_twice_updates_witness :
    wInst1.id = some (wInst1.id.getD 0) ∧
    (getOneById wDb1 (wInst1.id.getD 0)).isSome ∧
    (Model.save wFields (PyVal.str "t2") wInst1 wDb1).map Prod.snd =
      some (updateById wDb1 (buildData wFields wInst1 (PyVal.str "t2"))
        (wInst1.id.getD 0)) ∧
    (updateById wDb1 (buildData wFields wInst1 (PyVal.str "t2"))
        (wInst1.id.getD 0)).length = wDb1.length :=
  c2_save_twice_updates wFields (PyVal.str "t1") (PyVal.str "t2") wInst0 wInst1 [] wDb1
    (by decide) (by intro r hr; cases hr) (by decide) rfl (by decide)

/-- A table whose largest rowid in use is -1 (reachable through the
explicit-ID insert arm of `save` itself, since -1 is truthy). -/
def cDb0 : Table := [[("id", PyVal.int (-1)), ("name", PyVal.str "Bob")]]

/-- The instance after the first save over `cDb0`: identity 0 assigned,
because SQLite assigns largest rowid plus one with no floor. -/
def cInst1 : Instance := ⟨some 0, [("name", PyVal.str "Ann")]⟩

/-- The table after the first save over `cDb0`: the new row got rowid 0. -/
def cDb1 : Table := cDb0 ++ [[("id", PyVal.int 0), ("name", PyVal.str "Ann")]]

/-- The instance after the second save: a NEW identity, 1. -/
def cInst2 : Instance := ⟨some 1, [("name", PyVal.str "Ann")]⟩

/-- The table after the second save: a third row was inserted. -/
def cDb2 : Table := cDb1 ++ [[("id", PyVal.int 1), ("name", PyVal.str "Ann")]]

/-- C2 counterexample: over a table whose largest rowid in use is -1, the
first `save` of a fresh instance is assigned identity 0 (SQLite gives the
next rowid with no floor at zero).  The identity 0 is an assigned identity,
but it is falsy for the truthiness test of `save`, so the second `save`
with no field changes does not probe by primary key and INSERTs a new row:
the table's row count grows by one, falsifying the claim that the second
save performs an UPDATE and keeps the row count constant. -/
theorem c2_save_twice_counterexample :
    Model.save wFields (PyVal.str "t1") wInst0 cDb0 = some (cInst1, cDb1) ∧
    cInst1.id = some 0 ∧
    Model.save wFields (PyVal.str "t2") cInst1 cDb1 = some (cInst2, cDb2) ∧
    cDb2.length = cDb1.length + 1 :=
  ⟨rfl, rfl, rfl, rfl⟩
